import Mathlib

/-!
Verification of the FocusTrack local storage layer.

This file shallowly embeds the storage core of the FocusTrack repository:
FileUtils (src/main/storage/utils/FileUtils.js), StorageEncryptionService,
SettingsRepository (src/main/storage/repositories/SettingsRepository.js),
EntityRepository, and the event forwarding of StorageManagerAdapter
(src/main/storage/adapters/StorageManagerAdapter.js).

Modelling conventions:
* JSON-serializable JavaScript values are the inductive `Json`; JavaScript
  objects are ordered association lists with unique keys (`Obj`), with the
  object-literal / spread semantics (later keys overwrite in place, new keys
  append at the end), mirroring property insertion order.
* The file system is an ordered association list from paths (directory
  segments plus a base name) to file contents. A file content is either the
  serialization of a JSON value (`FileData.jsonD`) or unparsable bytes
  (`FileData.rawD`), so JSON.parse is total on the former and throws on the
  latter.
* Ciphertext produced by StorageEncryptionService.encryptData (aes-256-gcm
  with a pbkdf2 key derived from a per-call random salt) is modelled
  symbolically by the `Json.cipher` constructor, which records the encrypted
  plaintext together with the salt, IV and auth tag baked into the
  ciphertext. decryptData succeeds exactly when it is handed back the same
  salt, IV and auth tag, since a wrong salt derives a wrong key and gcm then
  fails authentication; a missing salt or auth tag makes the Node code throw
  before decrypting (Buffer.from(undefined) raises).
* Asynchrony is sequentialized: every repository method is a function from
  the explicit state (repository fields, file system) to the new state plus
  an `Except` result; a thrown/rejected error is `Except.error`.
* Fresh random salts and IVs, generated ids and `new Date().toISOString()`
  timestamps are passed in as explicit parameters.
-/

namespace FocusTrack

/-- JSON-like runtime values of the storage layer. `cipher` is the symbolic
model of a hex ciphertext string produced by encryptData: it records the
plaintext that was encrypted and the salt / IV / auth tag of that call. -/
inductive Json where
  | null
  | bool (b : Bool)
  | num (n : Int)
  | str (s : String)
  | arr (xs : List Json)
  | obj (fields : List (String × Json))
  | cipher (plain : Json) (salt iv tag : Nat)

/-- JavaScript truthiness of a modelled value (undefined is modelled as a
missing key and handled at use sites; `null`, `false`, `0` and the empty
string are falsy). -/
def Json.truthy : Json → Bool
  | .null => false
  | .bool b => b
  | .num n => n != 0
  | .str s => s != ""
  | .arr _ => true
  | .obj _ => true
  | .cipher _ _ _ _ => true

/-- A JavaScript object: ordered fields, unique keys. -/
abbrev Obj := List (String × Json)

/-- Property read: `o[k]`, `none` standing for undefined. -/
def oget : Obj → String → Option Json
  | [], _ => none
  | p :: rest, k => if p.1 = k then some p.2 else oget rest k

/-- Property write: overwrites in place, or appends a new key at the end
(JavaScript object-literal / spread update order). -/
def oset : Obj → String → Json → Obj
  | [], k, v => [(k, v)]
  | p :: rest, k, v => if p.1 = k then (k, v) :: rest else p :: oset rest k v

/-- Spread-merge `{...a, ...b}`: every field of `b`, in order, written over
`a`. -/
def omerge (a b : Obj) : Obj := b.foldl (fun acc p => oset acc p.1 p.2) a

/-- `delete o[k]`. -/
def odelete (o : Obj) (k : String) : Obj := o.filter (fun p => p.1 ≠ k)

/-- JavaScript `String.prototype.endsWith`, modelled over the character
list (the byte-position-based core `String.endsWith` is semantically
identical but does not evaluate inside proofs). -/
def strEndsWith (s suffix : String) : Bool := suffix.data.isSuffixOf s.data

/-- Dropping the last `n` characters — the effect of
`key.replace("_encrypted", "")` on a key of the shape
`<field>_encrypted` (JavaScript replace rewrites the first occurrence;
every key the code feeds it matches only as a suffix). -/
def strDropRight (s : String) (n : Nat) : String :=
  ⟨s.data.take (s.data.length - n)⟩

/-! ## StorageEncryptionService (src/main/storage/utils, third class in the
file bundle)

`present` models whether a service object was supplied to the repository at
all (`this.encryptionService` truthy); `enabled` is the service field
toggled by `setEnabled`. -/

structure EncSvc where
  present : Bool
  enabled : Bool

/-- The gcm auth tag of an encryption call, as an abstract function of the
plaintext and the call parameters (its concrete value is irrelevant; only
the match between encryption and decryption matters). -/
def authTagOf (_v : Json) (salt iv : Nat) : Nat := salt + iv

/-- `encryptData(data)`: when disabled, the pass-through `{data}`; when
enabled, `{data: <hex ciphertext>, salt, iv, authTag}` with a fresh salt and
IV (passed in as parameters here) and a pbkdf2 key derived from the secret
and the salt. The value is JSON.stringified before encryption and parsed
back by decryptData, so the cipher token records the value itself. -/
def encryptData (svc : EncSvc) (v : Json) (salt iv : Nat) : Obj :=
  if svc.enabled then
    [("data", Json.cipher v salt iv (authTagOf v salt iv)),
     ("salt", Json.num (Int.ofNat salt)),
     ("iv", Json.num (Int.ofNat iv)),
     ("authTag", Json.num (Int.ofNat (authTagOf v salt iv)))]
  else [("data", v)]

/-- `decryptData(encryptedData)`: when disabled, `{data: encryptedData.data}`.
When enabled it destructures `{data, salt, iv, authTag}`; a missing salt, IV
or auth tag throws (Buffer.from(undefined, "hex") raises a TypeError), and
aes-256-gcm decryption succeeds only with the same salt (key), IV and auth
tag that produced the ciphertext, throwing otherwise. On success the
decrypted string is JSON.parsed back, giving `{data: <original value>}`. -/
def decryptData (svc : EncSvc) (payload : Obj) : Except String Obj :=
  if !svc.enabled then .ok [("data", (oget payload "data").getD Json.null)]
  else
    match oget payload "data", oget payload "salt",
          oget payload "iv", oget payload "authTag" with
    | some (Json.cipher p cs ci ct), some (Json.num s),
        some (Json.num i), some (Json.num t) =>
      if Int.ofNat cs = s ∧ Int.ofNat ci = i ∧ Int.ofNat ct = t then
        .ok [("data", p)]
      else .error "Unsupported state or unable to authenticate data"
    | _, _, _, _ => .error "Failed to decrypt data"

/-! ## File system model and FileUtils
(src/main/storage/utils/FileUtils.js)

A path is a directory (list of segments) plus a base file name; `ensureDir`
is a no-op on this representation and is therefore not modelled separately.
Transaction logging and checksum sidecars are diagnostic-only (never read on
the operation paths the claims exercise) and are omitted. -/

structure FsPath where
  dir : List String
  base : String
deriving DecidableEq

/-- The `<path>.bak` backup path of a file. -/
def bakPath (p : FsPath) : FsPath := ⟨p.dir, p.base ++ ".bak"⟩

/-- Bytes on disk: either the JSON serialization of a value or content that
does not parse as JSON (corruption). -/
inductive FileData where
  | jsonD (v : Json)
  | rawD (s : String)

/-- The file store: ordered association list of paths to contents. -/
abbrev FS := List (FsPath × FileData)

def fget : FS → FsPath → Option FileData
  | [], _ => none
  | q :: rest, p => if q.1 = p then some q.2 else fget rest p

def fset : FS → FsPath → FileData → FS
  | [], p, d => [(p, d)]
  | q :: rest, p, d => if q.1 = p then (p, d) :: rest else q :: fset rest p d

def fdel (fs : FS) (p : FsPath) : FS := fs.filter (fun q => q.1 ≠ p)

/-- `fileExists(path)`: fs.access probe, never throws. -/
def fileExists (fs : FS) (p : FsPath) : Bool := (fget fs p).isSome

/-- `readJsonFile(path, default)`: default when absent; parse when present;
on a JSON SyntaxError, recover from backup; the recovery rewrites the
corrupted file, so the file system is returned alongside the value. -/
def readJsonFile (fs : FS) (p : FsPath) (dflt : Json) : FS × Json :=
  match fget fs p with
  | none => (fs, dflt)
  | some (.jsonD v) => (fs, v)
  | some (.rawD _) =>
    -- recoverFromBackup(path, default), inlined at its only call site shape:
    -- read <path>.bak, parse, copy it back over path, return the value;
    -- default when the backup is absent or itself unparsable.
    match fget fs (bakPath p) with
    | none => (fs, dflt)
    | some (.jsonD v) => (fset fs p (.jsonD v), v)
    | some (.rawD _) => (fs, dflt)

/-- `recoverFromBackup(path, default)` as a named operation (the same code
readJsonFile falls back to). -/
def recoverFromBackup (fs : FS) (p : FsPath) (dflt : Json) : FS × Json :=
  match fget fs (bakPath p) with
  | none => (fs, dflt)
  | some (.jsonD v) => (fset fs p (.jsonD v), v)
  | some (.rawD _) => (fs, dflt)

/-- `writeJsonFile(path, data, {createBackup})`: ensure the directory, copy
the current content to `<path>.bak` when requested and present, serialize,
write a temp file and atomically rename it over the destination. `ok`
injects whether the underlying temp-file write succeeds; on failure the
temp file is cleaned up and an error annotated with the path is thrown,
with the destination left untouched (the rename never happened) though the
backup copy may already have been taken. prettyPrint only affects
whitespace of the serialization and storeChecksum only writes a sidecar
never read on these paths; neither is modelled. -/
def backupStep (fs : FS) (p : FsPath) (createBackup : Bool) : FS :=
  match (if createBackup && fileExists fs p then fget fs p else none) with
  | some d => fset fs (bakPath p) d
  | none => fs

def writeJsonFile (fs : FS) (p : FsPath) (v : Json) (createBackup : Bool)
    (ok : Bool) : FS × Except String Unit :=
  if ok then (fset (backupStep fs p createBackup) p (.jsonD v), .ok ())
  else (backupStep fs p createBackup, .error "Failed to write file")

/-- `deleteFile(path)`: false when absent, true when removed. -/
def deleteFile (fs : FS) (p : FsPath) : FS × Bool :=
  if fileExists fs p then (fdel fs p, true) else (fs, false)

/-! ## SettingsRepository
(src/main/storage/repositories/SettingsRepository.js)

State: the encryption service, the `isInitialized` flag and the in-memory
settings cache (`null` or an array of Setting records). A record is an
`Obj` (the code spreads records, preserving any extra fields). The storage
path is fixed; `this.settingsFile = <storagePath>/settings/settings.json`. -/

structure SettingsRepo where
  svc : EncSvc
  inited : Bool
  settings : Option (List Obj)

def settingsDirPath : List String := ["storage", "settings"]

def settingsFilePath : FsPath := ⟨settingsDirPath, "settings.json"⟩

/-- The settings document on disk: a single JSON array of records. -/
def encodeSettings (l : List Obj) : Json := Json.arr (l.map Json.obj)

/-- Parse a settings document back into a record array. The real code
stores whatever JSON.parse returned and would only fail later, at the first
array-method call on a non-array; no claim exercises a malformed settings
document, so decoding failure is surfaced here directly. -/
def decodeSettings : Json → Option (List Obj)
  | Json.arr xs =>
    xs.mapM (fun x => match x with | Json.obj o => some o | _ => none)
  | _ => none

/-- `s.key === key` for a record: true exactly when the key field is the
string `key` (strict equality against a string). -/
def keyIs (s : Obj) (key : String) : Bool :=
  match oget s "key" with
  | some (Json.str k) => k = key
  | _ => false

/-- `this.settings.find(s => s.key === key)`: the first record with the
key. -/
def findSetting (l : List Obj) (key : String) : Option Obj :=
  match l with
  | [] => none
  | s :: rest => if keyIs s key then some s else findSetting rest key

/-- The number of records carrying a given key. -/
def keyCount (l : List Obj) (key : String) : Nat :=
  match l with
  | [] => 0
  | s :: rest => (if keyIs s key then 1 else 0) + keyCount rest key

/-- The upsert at the heart of setSetting: `findIndex` by key, then either
replace the first matching record in place by
`{...existing, <newFields>}` or `push` the new record at the end. -/
def upsertSetting (l : List Obj) (key : String) (newFields newRecord : Obj) :
    List Obj :=
  match l with
  | [] => [newRecord]
  | s :: rest =>
    if keyIs s key then omerge s newFields :: rest
    else s :: upsertSetting rest key newFields newRecord

/-- The splice at the heart of deleteSetting: remove the first record with
the key. -/
def removeFirstSetting (l : List Obj) (key : String) : List Obj :=
  match l with
  | [] => []
  | s :: rest => if keyIs s key then rest else s :: removeFirstSetting rest key

/-- `loadSettings()`: read the settings file when it exists; otherwise set
the cache to `[]` and persist the empty document. -/
def loadSettings (st : SettingsRepo) (fs : FS) (writeOk : Bool) :
    SettingsRepo × FS × Except String (List Obj) :=
  if fileExists fs settingsFilePath then
    match readJsonFile fs settingsFilePath Json.null with
    | (fs1, v) =>
      match decodeSettings v with
      | some l => ({ st with settings := some l }, fs1, .ok l)
      | none => (st, fs1, .error "settings document malformed")
  else
    let st1 := { st with settings := some [] }
    match writeJsonFile fs settingsFilePath (encodeSettings []) true writeOk with
    | (fs1, .ok _) => (st1, fs1, .ok [])
    | (fs1, .error e) => (st1, fs1, .error e)

/-- `saveSettings()`: write the whole cache back to the settings file
(createBackup defaults to true). -/
def saveSettings (st : SettingsRepo) (fs : FS) (writeOk : Bool) :
    FS × Except String Unit :=
  writeJsonFile fs settingsFilePath (encodeSettings (st.settings.getD []))
    true writeOk

/-- The common prefix of every method body: fail when not initialized, and
reload the cache from disk when it is null. -/
def settingsCache (st : SettingsRepo) (fs : FS) (writeOk : Bool) :
    SettingsRepo × FS × Except String (List Obj) :=
  match st.settings with
  | some l => (st, fs, .ok l)
  | none => loadSettings st fs writeOk

/-- `getSetting(key, defaultValue)`: linear search by key; decrypt when the
record carries a truthy `encrypted` and the service is present and enabled;
default when absent. The decryption payload is `{data: setting.value,
iv: setting.iv}` only — no salt and no authTag. -/
def getSetting (st : SettingsRepo) (fs : FS) (key : String) (dflt : Json)
    (writeOk : Bool) : SettingsRepo × FS × Except String Json :=
  if !st.inited then (st, fs, .error "SettingsRepository not initialized")
  else
    match settingsCache st fs writeOk with
    | (st1, fs1, .error e) => (st1, fs1, .error e)
    | (st1, fs1, .ok l) =>
      match findSetting l key with
      | none => (st1, fs1, .ok dflt)
      | some s =>
        if ((oget s "encrypted").getD Json.null).truthy &&
            st1.svc.present && st1.svc.enabled then
          match decryptData st1.svc
              [("data", (oget s "value").getD Json.null),
               ("iv", (oget s "iv").getD Json.null)] with
          | .ok d => (st1, fs1, .ok ((oget d "data").getD Json.null))
          | .error e => (st1, fs1, .error e)
        else (st1, fs1, .ok ((oget s "value").getD Json.null))

/-- `setSetting(key, value, {encrypted})`: encrypt (of the wrapper object
`{data: value}`) when requested and the service is present and enabled,
keeping only the ciphertext and the IV; upsert by key; persist; return
true. A thrown persist error propagates after the cache was already
mutated. -/
def setSetting (st : SettingsRepo) (fs : FS) (key : String) (value : Json)
    (encOpt : Bool) (salt iv : Nat) (now : String) (writeOk : Bool) :
    SettingsRepo × FS × Except String Bool :=
  if !st.inited then (st, fs, .error "SettingsRepository not initialized")
  else
    match settingsCache st fs writeOk with
    | (st1, fs1, .error e) => (st1, fs1, .error e)
    | (st1, fs1, .ok l) =>
      let doEncrypt := encOpt && st1.svc.present && st1.svc.enabled
      let enc := encryptData st1.svc (Json.obj [("data", value)]) salt iv
      let settingValue := if doEncrypt then (oget enc "data").getD Json.null
        else value
      let encData : Obj :=
        if doEncrypt then [("iv", (oget enc "iv").getD Json.null)] else []
      let newFields : Obj :=
        [("value", settingValue), ("encrypted", Json.bool encOpt)] ++ encData
          ++ [("updatedAt", Json.str now)]
      let newRecord : Obj :=
        [("key", Json.str key), ("value", settingValue),
         ("encrypted", Json.bool encOpt)] ++ encData
          ++ [("createdAt", Json.str now), ("updatedAt", Json.str now)]
      let st2 := { st1 with settings := some (upsertSetting l key newFields newRecord) }
      match saveSettings st2 fs1 writeOk with
      | (fs2, .ok _) => (st2, fs2, .ok true)
      | (fs2, .error e) => (st2, fs2, .error e)

/-- `deleteSetting(key)`: false when the key is absent; otherwise splice the
record out of the cache, persist, return true. The splice precedes the
persist, and a persist failure propagates without rolling the cache back. -/
def deleteSetting (st : SettingsRepo) (fs : FS) (key : String)
    (writeOk : Bool) : SettingsRepo × FS × Except String Bool :=
  if !st.inited then (st, fs, .error "SettingsRepository not initialized")
  else
    match settingsCache st fs writeOk with
    | (st1, fs1, .error e) => (st1, fs1, .error e)
    | (st1, fs1, .ok l) =>
      match findSetting l key with
      | none => (st1, fs1, .ok false)
      | some _ =>
        let st2 := { st1 with settings := some (removeFirstSetting l key) }
        match saveSettings st2 fs1 writeOk with
        | (fs2, .ok _) => (st2, fs2, .ok true)
        | (fs2, .error e) => (st2, fs2, .error e)

/-! ## EntityRepository (EntityRepository.js)

State: the encryption service and the `isInitialized` flag. Entities live
one file per record at `<storagePath>/entities/<type>/<id>.json`. -/

structure EntityRepo where
  svc : EncSvc
  inited : Bool

def entitiesRootPath : List String := ["storage", "entities"]

/-- `getEntityPath(entityType)`. -/
def entityDirPath (t : String) : List String := entitiesRootPath ++ [t]

/-- JavaScript string interpolation of a value into a path template
(`${entityId}.json`); a missing property interpolates as "undefined". -/
def jsToPathString : Option Json → String
  | some (Json.str s) => s
  | some (Json.bool b) => if b then "true" else "false"
  | some (Json.num n) => toString n
  | some Json.null => "null"
  | some (Json.arr _) => "[array]"
  | some (Json.obj _) => "[object Object]"
  | some (Json.cipher _ _ _ _) => "[cipher]"
  | none => "undefined"

/-- `getEntityFilePath(entityType, entityId)`. -/
def entityFilePath (t id : String) : FsPath :=
  ⟨entityDirPath t, id ++ ".json"⟩

/-- `prepareEntityForStorage(entityType, data, options)`. Field-level
encryption replaces each listed, present field in a copy of the record with
its ciphertext plus `<field>_iv` and `<field>_encrypted: true` siblings
(only the ciphertext and the IV of the encryptData result are kept). Whole
record encryption returns `{...encryptData(data), _encrypted: true}` —
note: without the id. Either applies only when the service is present and
enabled; otherwise the record passes through. An options.encryptFields
array enters the first branch even when empty (a JavaScript array is
truthy), hence the `Option (List String)`. The per-call random salt and IV
are threaded as parameters (one pair per operation). -/
def prepareEntity (svc : EncSvc) (data : Obj)
    (encryptFields : Option (List String)) (encryptWhole : Bool)
    (salt iv : Nat) : Obj :=
  if encryptFields.isSome && svc.present && svc.enabled then
    (encryptFields.getD []).foldl
      (fun acc f =>
        match oget data f with
        | some v =>
          let e := encryptData svc (Json.obj [("data", v)]) salt iv
          oset (oset (oset acc f ((oget e "data").getD Json.null))
            (f ++ "_iv") ((oget e "iv").getD Json.null))
            (f ++ "_encrypted") (Json.bool true)
        | none => acc)
      data
  else if encryptWhole && svc.present && svc.enabled then
    omerge (encryptData svc (Json.obj data) salt iv)
      [("_encrypted", Json.bool true)]
  else data

/-- `storeEntity(entityType, data)`: ensure the type directory and write
`<data.id>.json` (default write options). -/
def storeEntity (fs : FS) (t : String) (data : Obj) (writeOk : Bool) :
    FS × Except String Unit :=
  writeJsonFile fs (entityFilePath t (jsToPathString (oget data "id")))
    (Json.obj data) true writeOk

/-- The field-decryption loop of getEntity: for every key of the stored
record ending in `_encrypted` whose value is strictly `true`, with both the
base field and its `_iv` sibling present, decrypt `{data: <field value>,
iv: <field iv>}` (again no salt / authTag) when the service is present and
enabled, writing the result over a copy and deleting the two marker keys.
The JavaScript `key.replace("_encrypted", "")` replaces the first
occurrence; for keys of the shape `<field>_encrypted` this is the suffix
drop modelled here. -/
def fieldDecryptStep (svc : EncSvc) (data : Obj) (acc : Except String Obj)
    (kv : String × Json) : Except String Obj :=
  match acc with
  | .error e => .error e
  | .ok out =>
    if strEndsWith kv.1 "_encrypted" &&
        (match kv.2 with | Json.bool true => true | _ => false) then
      let f := strDropRight kv.1 "_encrypted".length
      if (oget data f).isSome && (oget data (f ++ "_iv")).isSome then
        if svc.present && svc.enabled then
          match decryptData svc
              [("data", (oget data f).getD Json.null),
               ("iv", (oget data (f ++ "_iv")).getD Json.null)] with
          | .ok d =>
            .ok (odelete (odelete
              (oset out f ((oget d "data").getD Json.null))
              (f ++ "_iv")) (f ++ "_encrypted"))
          | .error e => .error e
        else .ok out
      else .ok out
    else .ok out

def fieldDecryptGo (svc : EncSvc) (data : Obj) :
    List (String × Json) → Except String Obj → Except String Obj
  | [], acc => acc
  | kv :: rest, acc => fieldDecryptGo svc data rest (fieldDecryptStep svc data acc kv)

def fieldDecryptLoop (svc : EncSvc) (data : Obj) : Except String Obj :=
  fieldDecryptGo svc data data (.ok data)

/-- `getEntity(type, id)`: null when the file is absent; otherwise read,
run the field-decryption loop, and, when the record carries a truthy
`_encrypted` and the service is present and enabled, return the result of
decryptData on the whole record — which is the `{data: <original>}` wrapper
object, not the unwrapped record. -/
def getEntity (st : EntityRepo) (fs : FS) (t id : String) :
    FS × Except String (Option Json) :=
  if !st.inited then (fs, .error "EntityRepository not initialized")
  else
    let fp := entityFilePath t id
    if !fileExists fs fp then (fs, .ok none)
    else
      match readJsonFile fs fp Json.null with
      | (fs1, Json.obj data) =>
        match fieldDecryptLoop st.svc data with
        | .error e => (fs1, .error e)
        | .ok out =>
          if ((oget data "_encrypted").getD Json.null).truthy &&
              st.svc.present && st.svc.enabled then
            match decryptData st.svc data with
            | .ok d => (fs1, .ok (some (Json.obj d)))
            | .error e => (fs1, .error e)
          else (fs1, .ok (some (Json.obj out)))
      | (fs1, v) =>
        -- A non-object parse: the spread copy and key loop degenerate and
        -- the value is returned as read (no claim exercises this).
        (fs1, .ok (some v))

/-- `getAllEntities(type)`: after the initialization guard, the try block
ensures the type directory (a no-op on this path model) and then calls
`this.fileUtils.readDir(entityPath)`. The shipped FileUtils class — the
fileUtils of every real composition, and the class the repository is
documented against — defines no readDir method (its methods are
calculateChecksum, fileExists, ensureDir, readJsonFile, writeJsonFile,
storeChecksum, verifyFileIntegrity, recoverFromBackup, deleteFile,
logTransaction, getTransactionLogs and withTransaction), so the property
access yields undefined and the call raises a TypeError, which the catch
block re-emits as an error event and rethrows. The remainder of the body
(filter to `.json` names, read every file, reverse only whole-record
encryption) is unreachable. -/
def getAllEntities (st : EntityRepo) (fs : FS) (t : String) :
    FS × Except String (List Json) :=
  if !st.inited then (fs, .error "EntityRepository not initialized")
  else (fs, .error "this.fileUtils.readDir is not a function")

/-- `updateEntity(type, id, data, options)`: read the existing (decrypted)
record via getEntity; null when absent; otherwise
`{...existingEntity, ...data, id: entityId, updatedAt: <now>}` — the id is
forced back to the argument and updatedAt is freshly stamped, but a
createdAt key inside the partial update overrides the stored one; then
prepare (per options) and persist, returning the merged record. -/
def updateEntity (st : EntityRepo) (fs : FS) (t id : String) (data : Obj)
    (encryptFields : Option (List String)) (encryptWhole : Bool)
    (salt iv : Nat) (now : String) (writeOk : Bool) :
    FS × Except String (Option Obj) :=
  if !st.inited then (fs, .error "EntityRepository not initialized")
  else
    match getEntity st fs t id with
    | (fs1, .error e) => (fs1, .error e)
    | (fs1, .ok none) => (fs1, .ok none)
    | (fs1, .ok (some existing)) =>
      let ex : Obj := match existing with | Json.obj o => o | _ => []
      let updated := omerge (omerge ex data)
        [("id", Json.str id), ("updatedAt", Json.str now)]
      let prepared := prepareEntity st.svc updated encryptFields encryptWhole
        salt iv
      match storeEntity fs1 t prepared writeOk with
      | (fs2, .ok _) => (fs2, .ok (some updated))
      | (fs2, .error e) => (fs2, .error e)

/-- `deleteEntity(type, id)`: false when the file is absent, else unlink
and return true. -/
def deleteEntity (st : EntityRepo) (fs : FS) (t id : String) :
    FS × Except String Bool :=
  if !st.inited then (fs, .error "EntityRepository not initialized")
  else
    let fp := entityFilePath t id
    if !fileExists fs fp then (fs, .ok false)
    else ((deleteFile fs fp).1, .ok true)

/-! A small reference heap, for the in-place mutation performed by
createEntity on its `data` argument: references are numbers and the heap
maps each to the object it denotes. -/

abbrev Heap := List (Nat × Obj)

def hget : Heap → Nat → Obj
  | [], _ => []
  | q :: rest, r => if q.1 = r then q.2 else hget rest r

def hset : Heap → Nat → Obj → Heap
  | [], r, o => [(r, o)]
  | q :: rest, r, o => if q.1 = r then (r, o) :: rest else q :: hset rest r o

/-- `createEntity(type, data, options)`: mutates the caller object in place
— `data.id = generateId()` when `data.id` is falsy, `data.createdAt = now`
when falsy, `data.updatedAt = now` always — then prepares a (possibly
encrypted) copy for storage, writes it, and returns the very same `data`
object (the reference, not a copy). The generated id and the timestamp are
parameters. -/
def createEntity (st : EntityRepo) (heap : Heap) (fs : FS) (t : String)
    (dataRef : Nat) (encryptFields : Option (List String))
    (encryptWhole : Bool) (freshId : String) (salt iv : Nat) (now : String)
    (writeOk : Bool) : Heap × FS × Except String Nat :=
  if !st.inited then (heap, fs, .error "EntityRepository not initialized")
  else
    let d0 := hget heap dataRef
    let d1 := if !((oget d0 "id").getD Json.null).truthy then
        oset d0 "id" (Json.str freshId)
      else d0
    let d2 := if !((oget d1 "createdAt").getD Json.null).truthy then
        oset d1 "createdAt" (Json.str now)
      else d1
    let d3 := oset d2 "updatedAt" (Json.str now)
    let heap1 := hset heap dataRef d3
    let prepared := prepareEntity st.svc d3 encryptFields encryptWhole salt iv
    match storeEntity fs t prepared writeOk with
    | (fs1, .ok _) => (heap1, fs1, .ok dataRef)
    | (fs1, .error e) => (heap1, fs1, .error e)

/-! ## StorageManagerAdapter event forwarding
(src/main/storage/adapters/StorageManagerAdapter.js, forwardEvents)

Per configured repository, the constructor registers, in order: a plain
forwarder for "error", a plain forwarder for "initialized" (the
commonEvents loop), a second plain forwarder for "error", and a
source-tagging forwarder under the literal event name "*". The
repositories extend the standard Node EventEmitter, which has no wildcard
dispatch: emit(name, data) invokes exactly the listeners registered under
that name, in registration order. No repository ever emits an event
literally named "*"; the tagged handler is modelled as performing its
intended tagged re-emit so that the model is maximally charitable to it. -/

inductive FwdHandler where
  | plain
  | wildcard (srcTag : String)

/-- The listener registrations forwardEvents makes on one repository, with
its source tag ("entity" | "settings" | "metadata"). -/
def forwardRegs (srcTag : String) : List (String × FwdHandler) :=
  [("error", .plain), ("initialized", .plain), ("error", .plain),
   ("*", .wildcard srcTag)]

/-- The list of events (name, payload) the adapter re-emits when a
repository with the given source tag emits `ev` with payload `d`. -/
def adapterEmissions (srcTag : String) (ev : String) (d : Obj) :
    List (String × Obj) :=
  (forwardRegs srcTag).foldr
    (fun reg acc =>
      if reg.1 = ev then
        (match reg.2 with
         | .plain => (ev, d)
         | .wildcard tag =>
           (ev, omerge d [("source", Json.str tag)])) :: acc
      else acc)
    []

/-- The record upsertSetting installs for the key when no encryption is
applied (`doEncrypt` false): the update fields written over an existing
record. -/
def plainSetFields (V : Json) (b : Bool) (now : String) : Obj :=
  [("value", V), ("encrypted", Json.bool b), ("updatedAt", Json.str now)]

/-- The record pushed for a fresh key when no encryption is applied. -/
def plainNewRecord (K : String) (V : Json) (b : Bool) (now : String) : Obj :=
  [("key", Json.str K), ("value", V), ("encrypted", Json.bool b),
   ("createdAt", Json.str now), ("updatedAt", Json.str now)]

/-! ## Supporting lemmas -/

theorem oget_oset_self (o : Obj) (k : String) (v : Json) :
    oget (oset o k v) k = some v := by
  induction o with
  | nil => simp [oget, oset]
  | cons p rest ih =>
    by_cases h : p.1 = k
    · simp [oget, oset, h]
    · simp [oget, oset, h, ih]

theorem oget_oset_other (o : Obj) (k k2 : String) (v : Json) (h : k ≠ k2) :
    oget (oset o k v) k2 = oget o k2 := by
  induction o with
  | nil => simp [oget, oset, h]
  | cons p rest ih =>
    by_cases hp : p.1 = k
    · have : ¬ (k = k2) := h
      simp [oget, oset, hp, this]
    · by_cases hq : p.1 = k2
      · simp [oget, oset, hp, hq, Ne.symm h]
      · simp [oget, oset, hp, hq, ih]

theorem oget_some_mem {o : Obj} {k : String} {v : Json} (h : oget o k = some v) :
    (k, v) ∈ o := by
  induction o with
  | nil => simp [oget] at h
  | cons p rest ih =>
    rcases p with ⟨a, b⟩
    by_cases hp : a = k
    · simp [oget, hp] at h
      subst hp
      subst h
      exact List.mem_cons_self _ _
    · simp [oget, hp] at h
      exact List.mem_cons_of_mem _ (ih h)

theorem fget_fset_self (fs : FS) (p : FsPath) (d : FileData) :
    fget (fset fs p d) p = some d := by
  induction fs with
  | nil => simp [fget, fset]
  | cons q rest ih =>
    by_cases h : q.1 = p
    · simp [fget, fset, h]
    · simp [fget, fset, h, ih]

theorem fget_fset_other (fs : FS) (p p2 : FsPath) (d : FileData) (h : p ≠ p2) :
    fget (fset fs p d) p2 = fget fs p2 := by
  induction fs with
  | nil => simp [fget, fset, h]
  | cons q rest ih =>
    by_cases hq : q.1 = p
    · simp [fget, fset, hq, h]
    · by_cases hq2 : q.1 = p2
      · simp [fget, fset, hq, hq2, Ne.symm h]
      · simp [fget, fset, hq, hq2, ih]

/-- A file name differs from its `.bak` companion. -/
theorem bakPath_ne (p : FsPath) : p ≠ bakPath p := by
  intro h
  have hbase : p.base = p.base ++ ".bak" := congrArg FsPath.base h
  have hlen : p.base.length = p.base.length + ".bak".length :=
    (congrArg String.length hbase).trans (String.length_append _ _)
  have h4 : ".bak".length = 4 := rfl
  omega

/-- The backup copy goes to `<path>.bak`, so the content seen at any other
path — in particular at `path` itself — is unchanged by it. -/
theorem fget_backupStep (fs : FS) (p : FsPath) (cb : Bool) (q : FsPath)
    (h : q ≠ bakPath p) : fget (backupStep fs p cb) q = fget fs q := by
  unfold backupStep
  cases hb : (if cb && fileExists fs p then fget fs p else none) with
  | none => rfl
  | some d => exact fget_fset_other fs (bakPath p) q d (Ne.symm h)

theorem hget_hset_self (h : Heap) (r : Nat) (o : Obj) :
    hget (hset h r o) r = o := by
  induction h with
  | nil => simp [hget, hset]
  | cons q rest ih =>
    by_cases hq : q.1 = r
    · simp [hget, hset, hq]
    · simp [hget, hset, hq, ih]

theorem omerge_cons (s : Obj) (q : String × Json) (rest : Obj) :
    omerge s (q :: rest) = omerge (oset s q.1 q.2) rest := rfl

theorem oget_omerge_of_not_mem (s flds : Obj) (k : String)
    (h : ∀ q ∈ flds, q.1 ≠ k) : oget (omerge s flds) k = oget s k := by
  induction flds generalizing s with
  | nil => rfl
  | cons q rest ih =>
    rw [omerge_cons, ih (oset s q.1 q.2) (fun x hx => h x (List.mem_cons_of_mem _ hx))]
    exact oget_oset_other s q.1 k q.2 (h q (List.mem_cons_self _ _))

theorem oget_omerge_cons_self (s : Obj) (k : String) (v : Json) (rest : Obj)
    (h : ∀ q ∈ rest, q.1 ≠ k) :
    oget (omerge s ((k, v) :: rest)) k = some v := by
  rw [omerge_cons, oget_omerge_of_not_mem _ _ _ h]
  exact oget_oset_self s k v

theorem keyIs_omerge (s flds : Obj) (K : String)
    (h : ∀ q ∈ flds, q.1 ≠ "key") :
    keyIs (omerge s flds) K = keyIs s K := by
  unfold keyIs
  rw [oget_omerge_of_not_mem _ _ _ h]

theorem keyIs_unique {s : Obj} {k k2 : String} (h1 : keyIs s k = true)
    (h2 : keyIs s k2 = true) : k = k2 := by
  unfold keyIs at h1 h2
  cases h : oget s "key" with
  | none => rw [h] at h1; simp at h1
  | some v => cases v <;> rw [h] at h1 h2 <;> simp_all

theorem findSetting_upsert (l : List Obj) (K : String) (flds new : Obj)
    (hf : ∀ q ∈ flds, q.1 ≠ "key") (hnewK : keyIs new K = true) :
    findSetting (upsertSetting l K flds new) K =
      some (match findSetting l K with
            | some s => omerge s flds
            | none => new) := by
  induction l with
  | nil => simp [findSetting, upsertSetting, hnewK]
  | cons s rest ih =>
    by_cases hs : keyIs s K
    · simp [findSetting, upsertSetting, hs, keyIs_omerge _ _ _ hf]
    · simp [findSetting, upsertSetting, hs, ih]

theorem keyCount_upsert_self (l : List Obj) (K : String) (flds new : Obj)
    (hf : ∀ q ∈ flds, q.1 ≠ "key") (hnewK : keyIs new K = true)
    (h1 : keyCount l K ≤ 1) : keyCount (upsertSetting l K flds new) K = 1 := by
  induction l with
  | nil => simp [keyCount, upsertSetting, hnewK]
  | cons s rest ih =>
    by_cases hs : keyIs s K
    · simp only [keyCount, upsertSetting, hs, if_true,
        keyIs_omerge _ _ _ hf] at *
      omega
    · simp only [keyCount, upsertSetting, hs, if_false] at *
      simpa using ih (by simpa using h1)

theorem keyCount_upsert_other (l : List Obj) (K : String) (flds new : Obj)
    (k : String) (hf : ∀ q ∈ flds, q.1 ≠ "key")
    (hnewk : keyIs new k = false) :
    keyCount (upsertSetting l K flds new) k = keyCount l k := by
  induction l with
  | nil => simp [keyCount, upsertSetting, hnewk]
  | cons s rest ih =>
    by_cases hs : keyIs s K
    · simp [keyCount, upsertSetting, hs, keyIs_omerge _ _ _ hf]
    · simp [keyCount, upsertSetting, hs, ih]

theorem keyCount_upsert_le (l : List Obj) (K : String) (flds new : Obj)
    (hf : ∀ q ∈ flds, q.1 ≠ "key") (hnewK : keyIs new K = true)
    (h : ∀ k, keyCount l k ≤ 1) :
    ∀ k, keyCount (upsertSetting l K flds new) k ≤ 1 := by
  intro k
  by_cases hk : keyIs new k = true
  · have : k = K := keyIs_unique hk hnewK
    subst this
    rw [keyCount_upsert_self l k flds new hf hk (h k)]
  · rw [keyCount_upsert_other l K flds new k hf (by simpa using hk)]
    exact h k

theorem findSetting_eq_none_of_count_zero {l : List Obj} {K : String}
    (h : keyCount l K = 0) : findSetting l K = none := by
  induction l with
  | nil => rfl
  | cons s rest ih =>
    by_cases hs : keyIs s K
    · simp [keyCount, hs] at h
    · simp only [keyCount, hs, if_false] at h
      simpa [findSetting, hs] using ih (by simpa using h)

theorem findSetting_removeFirst (l : List Obj) (K : String)
    (h : keyCount l K ≤ 1) :
    findSetting (removeFirstSetting l K) K = none := by
  induction l with
  | nil => rfl
  | cons s rest ih =>
    by_cases hs : keyIs s K
    · simp only [removeFirstSetting, hs, if_true]
      simp only [keyCount, hs, if_true] at h
      exact findSetting_eq_none_of_count_zero (l := rest) (by omega)
    · simp only [removeFirstSetting, hs, if_false]
      simp only [keyCount, hs, if_false] at h
      simpa [findSetting, hs] using ih (by simpa using h)

theorem plainSetFields_no_key (V : Json) (b : Bool) (now : String) :
    ∀ q ∈ plainSetFields V b now, q.1 ≠ "key" := by
  intro q hq
  simp [plainSetFields] at hq
  rcases hq with h | h | h <;> simp [h]

theorem plainNewRecord_keyIs (K : String) (V : Json) (b : Bool)
    (now : String) : keyIs (plainNewRecord K V b now) K = true := by
  simp [keyIs, plainNewRecord, oget]

theorem oget_plainSet_value (s : Obj) (V : Json) (b : Bool) (now : String) :
    oget (omerge s (plainSetFields V b now)) "value" = some V := by
  refine oget_omerge_cons_self s "value" V _ ?_
  intro q hq
  simp only [List.mem_cons, List.not_mem_nil, or_false] at hq
  rcases hq with rfl | rfl <;> simp

theorem oget_plainSet_encrypted (s : Obj) (V : Json) (b : Bool)
    (now : String) :
    oget (omerge s (plainSetFields V b now)) "encrypted"
      = some (Json.bool b) := by
  rw [plainSetFields, omerge_cons]
  refine oget_omerge_cons_self _ "encrypted" (Json.bool b) _ ?_
  intro q hq
  simp only [List.mem_cons, List.not_mem_nil, or_false] at hq
  rcases hq with rfl
  simp

theorem oget_plainNewRecord_value (K : String) (V : Json) (b : Bool)
    (now : String) : oget (plainNewRecord K V b now) "value" = some V := by
  simp [plainNewRecord, oget]

theorem oget_plainNewRecord_encrypted (K : String) (V : Json) (b : Bool)
    (now : String) :
    oget (plainNewRecord K V b now) "encrypted" = some (Json.bool b) := by
  simp [plainNewRecord, oget]

/-- One successful setSetting run in which no encryption is applied
(either not requested, or requested while the service is absent or
disabled): the cache becomes the upsert of the old array and the whole new
array is persisted to the settings file. -/
theorem setSetting_noenc_run (st : SettingsRepo) (fs : FS) (K : String)
    (V : Json) (b : Bool) (salt iv : Nat) (now : String) (l : List Obj)
    (hinit : st.inited = true) (hcache : st.settings = some l)
    (hb : (b && st.svc.present && st.svc.enabled) = false) :
    setSetting st fs K V b salt iv now true =
      ({ st with settings := some (upsertSetting l K (plainSetFields V b now)
          (plainNewRecord K V b now)) },
       fset (backupStep fs settingsFilePath true) settingsFilePath
         (FileData.jsonD (encodeSettings (upsertSetting l K
           (plainSetFields V b now) (plainNewRecord K V b now)))),
       Except.ok true) := by
  simp [setSetting, settingsCache, hcache, hinit, hb, saveSettings,
    writeJsonFile, plainSetFields, plainNewRecord]

/-- A deleteSetting run on a present key whose persist step fails: the
error propagates, the cache keeps the spliced array, and the settings file
is not overwritten (only the backup copy may have been refreshed). -/
theorem deleteSetting_failed_run (st : SettingsRepo) (fs : FS) (K : String)
    (l : List Obj) (s0 : Obj) (hinit : st.inited = true)
    (hcache : st.settings = some l) (hfind : findSetting l K = some s0) :
    deleteSetting st fs K false =
      ({ st with settings := some (removeFirstSetting l K) },
       backupStep fs settingsFilePath true,
       Except.error "Failed to write file") := by
  simp [deleteSetting, settingsCache, hcache, hinit, hfind, saveSettings,
    writeJsonFile]

/-- getSetting on a key absent from the cached array returns the default. -/
theorem getSetting_absent (st : SettingsRepo) (fs : FS) (K : String)
    (d : Json) (wOk : Bool) (l : List Obj) (hinit : st.inited = true)
    (hcache : st.settings = some l) (hnone : findSetting l K = none) :
    getSetting st fs K d wOk = (st, fs, .ok d) := by
  simp [getSetting, settingsCache, hcache, hinit, hnone]

/-- The record a no-encryption upsert leaves under the key, and its value
and encrypted fields. -/
theorem upsert_found_record (l : List Obj) (K : String) (V : Json) (b : Bool)
    (now : String) :
    ∃ s1, findSetting (upsertSetting l K (plainSetFields V b now)
        (plainNewRecord K V b now)) K = some s1 ∧
      oget s1 "value" = some V ∧
      oget s1 "encrypted" = some (Json.bool b) := by
  rw [findSetting_upsert l K _ _ (plainSetFields_no_key V b now)
    (plainNewRecord_keyIs K V b now)]
  cases h : findSetting l K with
  | none =>
    exact ⟨plainNewRecord K V b now, rfl,
      oget_plainNewRecord_value K V b now,
      oget_plainNewRecord_encrypted K V b now⟩
  | some s =>
    exact ⟨omerge s (plainSetFields V b now), rfl,
      oget_plainSet_value s V b now, oget_plainSet_encrypted s V b now⟩

theorem oget_none_not_mem {o : Obj} {k : String} (h : oget o k = none) :
    ∀ kv ∈ o, kv.1 ≠ k := by
  intro kv hm hk
  induction o with
  | nil => simp at hm
  | cons p rest ih =>
    rcases List.mem_cons.mp hm with rfl | hm2
    · simp [oget, hk] at h
    · by_cases hp : p.1 = k
      · simp [oget, hp] at h
      · simp [oget, hp] at h
        exact ih h hm2

/-- Specialized no-collision rewrites for the timestamp / id keys. -/
theorem oget_oset_updatedAt_id (o : Obj) (v : Json) :
    oget (oset o "updatedAt" v) "id" = oget o "id" :=
  oget_oset_other o "updatedAt" "id" v (by decide)

theorem oget_oset_updatedAt_createdAt (o : Obj) (v : Json) :
    oget (oset o "updatedAt" v) "createdAt" = oget o "createdAt" :=
  oget_oset_other o "updatedAt" "createdAt" v (by decide)

theorem oget_oset_createdAt_id (o : Obj) (v : Json) :
    oget (oset o "createdAt" v) "id" = oget o "id" :=
  oget_oset_other o "createdAt" "id" v (by decide)

theorem oget_oset_id_createdAt (o : Obj) (v : Json) :
    oget (oset o "id" v) "createdAt" = oget o "createdAt" :=
  oget_oset_other o "id" "createdAt" v (by decide)

/-- The field-decryption loop is the identity on a record none of whose
keys carries the `_encrypted` suffix. -/
theorem fieldDecryptGo_plain (svc : EncSvc) (data : Obj)
    (l : List (String × Json)) (acc : Except String Obj)
    (h : ∀ kv ∈ l, strEndsWith kv.1 "_encrypted" = false) :
    fieldDecryptGo svc data l acc = acc := by
  induction l generalizing acc with
  | nil => rfl
  | cons kv rest ih =>
    have hk := h kv (List.mem_cons_self _ _)
    have hstep : fieldDecryptStep svc data acc kv = acc := by
      cases acc <;> simp [fieldDecryptStep, hk]
    rw [fieldDecryptGo, hstep]
    exact ih _ (fun x hx => h x (List.mem_cons_of_mem _ hx))

/-- getEntity on a stored plain record (no `_encrypted`-suffixed key):
returned as stored. -/
theorem getEntity_plain (st : EntityRepo) (fs : FS) (t id : String)
    (ex : Obj) (hinit : st.inited = true)
    (hfile : fget fs (entityFilePath t id)
      = some (FileData.jsonD (Json.obj ex)))
    (hplain : ∀ kv ∈ ex, strEndsWith kv.1 "_encrypted" = false) :
    getEntity st fs t id = (fs, .ok (some (Json.obj ex))) := by
  have hex : fileExists fs (entityFilePath t id) = true := by
    simp [fileExists, hfile]
  have hloop : fieldDecryptLoop st.svc ex = .ok ex :=
    fieldDecryptGo_plain st.svc ex ex (.ok ex) hplain
  have henc : oget ex "_encrypted" = none := by
    cases h2 : oget ex "_encrypted" with
    | none => rfl
    | some v =>
      have hm := oget_some_mem h2
      have hfalse := hplain _ hm
      have htrue : strEndsWith "_encrypted" "_encrypted" = true := rfl
      rw [htrue] at hfalse
      cases hfalse
  simp [getEntity, hinit, hex, readJsonFile, hfile, hloop, henc, Json.truthy]

/-! ## Claim theorems -/

/-- C6: on an initialized settings repository whose cached array respects
the no-duplicate-keys invariant, any `setSetting(K, V)` succeeds and leaves
exactly one record with key K, carrying value V, and preserves the
invariant; calling it twice in succession again leaves exactly one record
with key K and value V. -/
theorem C6_setSetting_upsert_unique
    (st : SettingsRepo) (fs : FS) (K : String) (V : Json) (l : List Obj)
    (salt iv salt2 iv2 : Nat) (now now2 : String)
    (hinit : st.inited = true) (hcache : st.settings = some l)
    (huniq : ∀ k, keyCount l k ≤ 1) :
    ∃ l1 l2 s1 s2,
      (setSetting st fs K V false salt iv now true).2.2 = Except.ok true ∧
      (setSetting st fs K V false salt iv now true).1.settings = some l1 ∧
      keyCount l1 K = 1 ∧ (∀ k, keyCount l1 k ≤ 1) ∧
      findSetting l1 K = some s1 ∧ oget s1 "value" = some V ∧
      (setSetting (setSetting st fs K V false salt iv now true).1
        (setSetting st fs K V false salt iv now true).2.1
        K V false salt2 iv2 now2 true).1.settings = some l2 ∧
      keyCount l2 K = 1 ∧ findSetting l2 K = some s2 ∧
      oget s2 "value" = some V := by
  have hb : (false && st.svc.present && st.svc.enabled) = false := by simp
  have run1 := setSetting_noenc_run st fs K V false salt iv now l hinit
    hcache hb
  have hf := plainSetFields_no_key V false now
  have hn := plainNewRecord_keyIs K V false now
  obtain ⟨s1, hs1find, hs1val, hs1enc⟩ := upsert_found_record l K V false now
  have hL1uniq := keyCount_upsert_le l K _ _ hf hn huniq
  have hL1count := keyCount_upsert_self l K _ _ hf hn (huniq K)
  obtain ⟨s2, hs2find, hs2val, hs2enc⟩ := upsert_found_record
    (upsertSetting l K (plainSetFields V false now) (plainNewRecord K V false now))
    K V false now2
  have hf2 := plainSetFields_no_key V false now2
  have hn2 := plainNewRecord_keyIs K V false now2
  have hL2count := keyCount_upsert_self
    (upsertSetting l K (plainSetFields V false now) (plainNewRecord K V false now))
    K _ _ hf2 hn2 (hL1uniq K)
  have run2 := setSetting_noenc_run
    { st with settings := some (upsertSetting l K (plainSetFields V false now)
        (plainNewRecord K V false now)) }
    (fset (backupStep fs settingsFilePath true) settingsFilePath
      (FileData.jsonD (encodeSettings (upsertSetting l K
        (plainSetFields V false now) (plainNewRecord K V false now)))))
    K V false salt2 iv2 now2
    (upsertSetting l K (plainSetFields V false now) (plainNewRecord K V false now))
    hinit rfl (by simp)
  refine ⟨upsertSetting l K (plainSetFields V false now)
      (plainNewRecord K V false now),
    upsertSetting
      (upsertSetting l K (plainSetFields V false now) (plainNewRecord K V false now))
      K (plainSetFields V false now2) (plainNewRecord K V false now2),
    s1, s2, ?_, ?_, hL1count, hL1uniq, hs1find, hs1val, ?_, hL2count,
    hs2find, hs2val⟩
  · rw [run1]
  · rw [run1]
  · rw [run1, run2]

/-- C6 witness: the concrete spec scenario — setSetting("theme","dark")
twice on a freshly initialized empty repository. -/
theorem C6_setSetting_upsert_unique_witness :
    ∃ l1 s1,
      (setSetting ⟨⟨false, false⟩, true, some []⟩ [] "theme"
        (Json.str "dark") false 0 0 "T1" true).2.2 = Except.ok true ∧
      (setSetting ⟨⟨false, false⟩, true, some []⟩ [] "theme"
        (Json.str "dark") false 0 0 "T1" true).1.settings = some l1 ∧
      keyCount l1 "theme" = 1 ∧ findSetting l1 "theme" = some s1 ∧
      oget s1 "value" = some (Json.str "dark") := by
  obtain ⟨l1, l2, s1, s2, h1, h2, h3, h4, h5, h6, h7, h8, h9, h10⟩ :=
    C6_setSetting_upsert_unique ⟨⟨false, false⟩, true, some []⟩ []
      "theme" (Json.str "dark") [] 0 0 0 0 "T1" "T2" rfl rfl
      (fun k => by simp [keyCount])
  exact ⟨l1, s1, h1, h2, h3, h5, h6⟩

/-- C9: setSetting with `{encrypted: true}` while the encryption service is
absent or disabled succeeds, stores the value in plaintext, yet stamps the
record `encrypted: true`, and persists that record to the settings file. -/
theorem C9_setSetting_encrypted_marker_without_service
    (st : SettingsRepo) (fs : FS) (K : String) (V : Json) (l : List Obj)
    (salt iv : Nat) (now : String)
    (hinit : st.inited = true) (hcache : st.settings = some l)
    (hsvc : st.svc.present = false ∨ st.svc.enabled = false) :
    ∃ l1 s1,
      (setSetting st fs K V true salt iv now true).2.2 = Except.ok true ∧
      (setSetting st fs K V true salt iv now true).1.settings = some l1 ∧
      findSetting l1 K = some s1 ∧
      oget s1 "value" = some V ∧
      oget s1 "encrypted" = some (Json.bool true) ∧
      fget (setSetting st fs K V true salt iv now true).2.1 settingsFilePath
        = some (FileData.jsonD (encodeSettings l1)) := by
  have hb : (true && st.svc.present && st.svc.enabled) = false := by
    rcases hsvc with h | h <;> simp [h]
  have run := setSetting_noenc_run st fs K V true salt iv now l hinit
    hcache hb
  obtain ⟨s1, hfind, hval, henc⟩ := upsert_found_record l K V true now
  refine ⟨_, s1, ?_, ?_, hfind, hval, henc, ?_⟩
  · rw [run]
  · rw [run]
  · rw [run]
    exact fget_fset_self _ _ _

/-- C9 witness: an enabled-marker plaintext store with a present but
disabled service. -/
theorem C9_setSetting_encrypted_marker_without_service_witness :
    ∃ l1 s1,
      (setSetting ⟨⟨true, false⟩, true, some []⟩ [] "apiKey"
        (Json.str "secret") true 0 0 "T1" true).2.2 = Except.ok true ∧
      (setSetting ⟨⟨true, false⟩, true, some []⟩ [] "apiKey"
        (Json.str "secret") true 0 0 "T1" true).1.settings = some l1 ∧
      findSetting l1 "apiKey" = some s1 ∧
      oget s1 "value" = some (Json.str "secret") ∧
      oget s1 "encrypted" = some (Json.bool true) ∧
      fget (setSetting ⟨⟨true, false⟩, true, some []⟩ [] "apiKey"
          (Json.str "secret") true 0 0 "T1" true).2.1 settingsFilePath
        = some (FileData.jsonD (encodeSettings l1)) :=
  C9_setSetting_encrypted_marker_without_service ⟨⟨true, false⟩, true, some []⟩
    [] "apiKey" (Json.str "secret") [] 0 0 "T1" rfl rfl (Or.inr rfl)

/-- C10: when the persist step of deleteSetting(K) fails, the error
propagates, but the cache already lost K and is not rolled back: a
subsequent getSetting(K, d) on the same instance returns d, while the
settings file on disk still holds the old document containing K. -/
theorem C10_deleteSetting_failed_persist
    (st : SettingsRepo) (fs : FS) (K : String) (l : List Obj) (s0 : Obj)
    (d : Json) (hinit : st.inited = true) (hcache : st.settings = some l)
    (hfind : findSetting l K = some s0) (huniq : ∀ k, keyCount l k ≤ 1)
    (hdisk : fget fs settingsFilePath
      = some (FileData.jsonD (encodeSettings l))) :
    (deleteSetting st fs K false).2.2
      = Except.error "Failed to write file" ∧
    (deleteSetting st fs K false).1.settings
      = some (removeFirstSetting l K) ∧
    findSetting (removeFirstSetting l K) K = none ∧
    (getSetting (deleteSetting st fs K false).1
      (deleteSetting st fs K false).2.1 K d true).2.2 = Except.ok d ∧
    fget (deleteSetting st fs K false).2.1 settingsFilePath
      = some (FileData.jsonD (encodeSettings l)) := by
  have run := deleteSetting_failed_run st fs K l s0 hinit hcache hfind
  have hnone := findSetting_removeFirst l K (huniq K)
  refine ⟨?_, ?_, hnone, ?_, ?_⟩
  · rw [run]
  · rw [run]
  · rw [run]
    exact congrArg (fun r => r.2.2)
      (getSetting_absent ⟨st.svc, st.inited, some (removeFirstSetting l K)⟩
        (backupStep fs settingsFilePath true) K d true
        (removeFirstSetting l K) hinit rfl hnone)
  · rw [run]
    rw [fget_backupStep fs settingsFilePath true settingsFilePath
      (bakPath_ne _)]
    exact hdisk

/-- C10 witness: one-record store, failing write. -/
theorem C10_deleteSetting_failed_persist_witness :
    (deleteSetting ⟨⟨false, false⟩, true,
        some [[("key", Json.str "K"), ("value", Json.str "V")]]⟩
      [(settingsFilePath, FileData.jsonD
        (encodeSettings [[("key", Json.str "K"), ("value", Json.str "V")]]))]
      "K" false).2.2 = Except.error "Failed to write file" ∧
    (deleteSetting ⟨⟨false, false⟩, true,
        some [[("key", Json.str "K"), ("value", Json.str "V")]]⟩
      [(settingsFilePath, FileData.jsonD
        (encodeSettings [[("key", Json.str "K"), ("value", Json.str "V")]]))]
      "K" false).1.settings
      = some (removeFirstSetting
          [[("key", Json.str "K"), ("value", Json.str "V")]] "K") ∧
    findSetting (removeFirstSetting
      [[("key", Json.str "K"), ("value", Json.str "V")]] "K") "K" = none ∧
    (getSetting (deleteSetting ⟨⟨false, false⟩, true,
          some [[("key", Json.str "K"), ("value", Json.str "V")]]⟩
        [(settingsFilePath, FileData.jsonD
          (encodeSettings [[("key", Json.str "K"), ("value", Json.str "V")]]))]
        "K" false).1
      (deleteSetting ⟨⟨false, false⟩, true,
          some [[("key", Json.str "K"), ("value", Json.str "V")]]⟩
        [(settingsFilePath, FileData.jsonD
          (encodeSettings [[("key", Json.str "K"), ("value", Json.str "V")]]))]
        "K" false).2.1 "K" (Json.str "D") true).2.2
      = Except.ok (Json.str "D") ∧
    fget (deleteSetting ⟨⟨false, false⟩, true,
        some [[("key", Json.str "K"), ("value", Json.str "V")]]⟩
      [(settingsFilePath, FileData.jsonD
        (encodeSettings [[("key", Json.str "K"), ("value", Json.str "V")]]))]
      "K" false).2.1 settingsFilePath
      = some (FileData.jsonD
        (encodeSettings [[("key", Json.str "K"), ("value", Json.str "V")]])) :=
  C10_deleteSetting_failed_persist
    ⟨⟨false, false⟩, true, some [[("key", Json.str "K"), ("value", Json.str "V")]]⟩
    [(settingsFilePath, FileData.jsonD
      (encodeSettings [[("key", Json.str "K"), ("value", Json.str "V")]]))]
    "K" [[("key", Json.str "K"), ("value", Json.str "V")]]
    [("key", Json.str "K"), ("value", Json.str "V")] (Json.str "D")
    rfl rfl rfl (fun k => by simp [keyCount]; split <;> omega) rfl

/-- C1: the spec round-trip `setSetting("apiKey","secret",{encrypted:true})`
then `getSetting("apiKey")` on an initialized repository with the service
enabled. The first half of the property holds — the persisted record stores
ciphertext, never the plaintext "secret", and carries an iv — but
getSetting then throws instead of returning "secret": setSetting kept only
the ciphertext and iv of the encryptData result, dropping the salt and
authTag that decryptData needs to re-derive the key and authenticate. -/
theorem C1_settings_encrypted_roundtrip_bug :
    (setSetting ⟨⟨true, true⟩, true, some []⟩ [] "apiKey"
      (Json.str "secret") true 5 7 "T1" true).2.2 = Except.ok true ∧
    (setSetting ⟨⟨true, true⟩, true, some []⟩ [] "apiKey"
      (Json.str "secret") true 5 7 "T1" true).1.settings =
      some [[("key", Json.str "apiKey"),
             ("value", Json.cipher (Json.obj [("data", Json.str "secret")])
               5 7 (authTagOf (Json.obj [("data", Json.str "secret")]) 5 7)),
             ("encrypted", Json.bool true),
             ("iv", Json.num 7),
             ("createdAt", Json.str "T1"), ("updatedAt", Json.str "T1")]] ∧
    Json.cipher (Json.obj [("data", Json.str "secret")]) 5 7
        (authTagOf (Json.obj [("data", Json.str "secret")]) 5 7)
      ≠ Json.str "secret" ∧
    fget (setSetting ⟨⟨true, true⟩, true, some []⟩ [] "apiKey"
        (Json.str "secret") true 5 7 "T1" true).2.1 settingsFilePath =
      some (FileData.jsonD (encodeSettings
        [[("key", Json.str "apiKey"),
          ("value", Json.cipher (Json.obj [("data", Json.str "secret")])
            5 7 (authTagOf (Json.obj [("data", Json.str "secret")]) 5 7)),
          ("encrypted", Json.bool true),
          ("iv", Json.num 7),
          ("createdAt", Json.str "T1"), ("updatedAt", Json.str "T1")]])) ∧
    (getSetting
      (setSetting ⟨⟨true, true⟩, true, some []⟩ [] "apiKey"
        (Json.str "secret") true 5 7 "T1" true).1
      (setSetting ⟨⟨true, true⟩, true, some []⟩ [] "apiKey"
        (Json.str "secret") true 5 7 "T1" true).2.1
      "apiKey" (Json.str "dflt") true).2.2
      = Except.error "Failed to decrypt data" :=
  ⟨rfl, rfl, by simp, rfl, rfl⟩

/-- C3: write A, then write B with createBackup — the `.bak` file holds
exactly A; corrupting the destination afterwards makes readJsonFile
recover: it returns exactly A and restores the file content to A. -/
theorem C3_backup_roundtrip (fs : FS) (p : FsPath) (A B d : Json)
    (s : String) :
    fget (writeJsonFile (writeJsonFile fs p A true true).1 p B true true).1
      (bakPath p) = some (FileData.jsonD A) ∧
    (readJsonFile (fset (writeJsonFile (writeJsonFile fs p A true true).1 p B
      true true).1 p (FileData.rawD s)) p d).2 = A ∧
    fget (readJsonFile (fset (writeJsonFile (writeJsonFile fs p A true
      true).1 p B true true).1 p (FileData.rawD s)) p d).1 p
      = some (FileData.jsonD A) := by
  have hw1 : (writeJsonFile fs p A true true).1
      = fset (backupStep fs p true) p (FileData.jsonD A) := rfl
  have h1 : fget (writeJsonFile fs p A true true).1 p
      = some (FileData.jsonD A) := by
    rw [hw1]
    exact fget_fset_self _ _ _
  have hex : fileExists (writeJsonFile fs p A true true).1 p = true := by
    simp [fileExists, h1]
  have hb : backupStep (writeJsonFile fs p A true true).1 p true
      = fset (writeJsonFile fs p A true true).1 (bakPath p)
          (FileData.jsonD A) := by
    simp [backupStep, hex, h1]
  have hw2 : (writeJsonFile (writeJsonFile fs p A true true).1 p B true
      true).1 = fset (backupStep (writeJsonFile fs p A true true).1 p true)
        p (FileData.jsonD B) := rfl
  have h2 : fget (writeJsonFile (writeJsonFile fs p A true true).1 p B true
      true).1 (bakPath p) = some (FileData.jsonD A) := by
    rw [hw2, fget_fset_other _ _ _ _ (bakPath_ne p), hb, fget_fset_self]
  have hr : fget (fset (writeJsonFile (writeJsonFile fs p A true true).1 p B
      true true).1 p (FileData.rawD s)) p = some (FileData.rawD s) :=
    fget_fset_self _ _ _
  have hbk : fget (fset (writeJsonFile (writeJsonFile fs p A true true).1 p B
      true true).1 p (FileData.rawD s)) (bakPath p)
      = some (FileData.jsonD A) := by
    rw [fget_fset_other _ _ _ _ (bakPath_ne p)]
    exact h2
  refine ⟨h2, ?_, ?_⟩
  · simp [readJsonFile, hr, hbk]
  · simp [readJsonFile, hr, hbk]
    exact fget_fset_self _ _ _

/-- C5: on an initialized entity repository, a type/id pair with no backing
file gives getEntity null, updateEntity null for any partial update and any
options, and deleteEntity false — all returned, none thrown. -/
theorem C5_missing_record_semantics (st : EntityRepo) (fs : FS)
    (t id : String) (P : Obj) (fl : Option (List String)) (ew : Bool)
    (salt iv : Nat) (now : String) (wOk : Bool)
    (hinit : st.inited = true)
    (habsent : fget fs (entityFilePath t id) = none) :
    getEntity st fs t id = (fs, .ok none) ∧
    updateEntity st fs t id P fl ew salt iv now wOk = (fs, .ok none) ∧
    deleteEntity st fs t id = (fs, .ok false) := by
  have hex : fileExists fs (entityFilePath t id) = false := by
    simp [fileExists, habsent]
  have hg : getEntity st fs t id = (fs, .ok none) := by
    simp [getEntity, hinit, hex]
  refine ⟨hg, ?_, ?_⟩
  · simp [updateEntity, hinit, hg]
  · simp [deleteEntity, hinit, hex]

/-- C5 witness: the spec triple on "tasks"/"nope" over an empty store. -/
theorem C5_missing_record_semantics_witness :
    getEntity ⟨⟨false, false⟩, true⟩ [] "tasks" "nope" = ([], .ok none) ∧
    updateEntity ⟨⟨false, false⟩, true⟩ [] "tasks" "nope" [] none false 0 0
      "T" true = ([], .ok none) ∧
    deleteEntity ⟨⟨false, false⟩, true⟩ [] "tasks" "nope"
      = ([], .ok false) :=
  C5_missing_record_semantics ⟨⟨false, false⟩, true⟩ [] "tasks" "nope" []
    none false 0 0 "T" true rfl rfl

/-- C7 counterexample: a domain event (entityCreated) is not re-emitted at
all — the source-tagging listener sits under the literal event name "*",
which the standard EventEmitter never dispatches for other events — and an
error event is re-emitted twice, not exactly once (two listeners are
registered for "error"). -/
theorem C7_forwarding_counterexample :
    adapterEmissions "entity" "entityCreated"
      [("entityType", Json.str "tasks")] = [] ∧
    adapterEmissions "entity" "error" [("operation", Json.str "x")]
      = [("error", [("operation", Json.str "x")]),
         ("error", [("operation", Json.str "x")])] := ⟨rfl, rfl⟩

/-- C7 amended: the adapter re-emits a repository error event unchanged but
twice per occurrence, re-emits initialized unchanged exactly once, and
re-emits no other repository event at all (its tagged forwarder is
registered under the literal name "*", an event no repository emits). -/
theorem C7_forwarding_behavior (tag ev : String) (d : Obj)
    (h1 : ev ≠ "error") (h2 : ev ≠ "initialized") (h3 : ev ≠ "*") :
    adapterEmissions tag ev d = [] ∧
    adapterEmissions tag "error" d = [("error", d), ("error", d)] ∧
    adapterEmissions tag "initialized" d = [("initialized", d)] := by
  refine ⟨?_, rfl, rfl⟩
  simp [adapterEmissions, forwardRegs, Ne.symm h1, Ne.symm h2, Ne.symm h3]

/-- C7 amended witness: a concrete domain event. -/
theorem C7_forwarding_behavior_witness :
    adapterEmissions "settings" "settingChanged"
      [("key", Json.str "theme")] = [] ∧
    adapterEmissions "settings" "error" [("key", Json.str "theme")]
      = [("error", [("key", Json.str "theme")]),
         ("error", [("key", Json.str "theme")])] ∧
    adapterEmissions "settings" "initialized" [("key", Json.str "theme")]
      = [("initialized", [("key", Json.str "theme")])] :=
  C7_forwarding_behavior "settings" "settingChanged"
    [("key", Json.str "theme")] (by decide) (by decide) (by decide)

/-- C2 counterexample: on a stored record with createdAt "T0", an update
whose partial object itself carries createdAt "T9" returns (and persists) a
record whose createdAt is "T9", not the pre-existing "T0" — the claim fails
for partial updates containing createdAt (the spread lets them through;
only id is forced back). -/
theorem C2_updateEntity_createdAt_counterexample :
    (updateEntity ⟨⟨false, false⟩, true⟩
      [(entityFilePath "tasks" "e1", FileData.jsonD (Json.obj
        [("id", Json.str "e1"), ("createdAt", Json.str "T0"),
         ("title", Json.str "A")]))]
      "tasks" "e1" [("createdAt", Json.str "T9")] none false 0 0 "T5"
      true).2
    = Except.ok (some [("id", Json.str "e1"), ("createdAt", Json.str "T9"),
        ("title", Json.str "A"), ("updatedAt", Json.str "T5")]) ∧
    Json.str "T9" ≠ Json.str "T0" := ⟨rfl, by simp⟩

/-- C2 amended: for an existing plain record and a partial update P that
does not itself set createdAt, updateEntity returns and persists a record
with id forced to the argument (for every P, even one containing an id),
createdAt preserved from the stored record, and a freshly stamped
updatedAt. -/
theorem C2_updateEntity_preserves_id_createdAt (st : EntityRepo) (fs : FS)
    (t id : String) (P ex : Obj) (salt iv : Nat) (now : String)
    (hinit : st.inited = true)
    (hfile : fget fs (entityFilePath t id)
      = some (FileData.jsonD (Json.obj ex)))
    (hplain : ∀ kv ∈ ex, strEndsWith kv.1 "_encrypted" = false)
    (hP : oget P "createdAt" = none) :
    ∃ fs1 u, updateEntity st fs t id P none false salt iv now true
        = (fs1, .ok (some u)) ∧
      oget u "id" = some (Json.str id) ∧
      oget u "createdAt" = oget ex "createdAt" ∧
      oget u "updatedAt" = some (Json.str now) ∧
      fget fs1 (entityFilePath t id) = some (FileData.jsonD (Json.obj u)) := by
  have hget := getEntity_plain st fs t id ex hinit hfile hplain
  have hid : oget (omerge (omerge ex P)
      [("id", Json.str id), ("updatedAt", Json.str now)]) "id"
      = some (Json.str id) := by
    refine oget_omerge_cons_self _ "id" (Json.str id) _ ?_
    intro q hq
    simp only [List.mem_cons, List.not_mem_nil, or_false] at hq
    subst hq
    simp
  have hupd : oget (omerge (omerge ex P)
      [("id", Json.str id), ("updatedAt", Json.str now)]) "updatedAt"
      = some (Json.str now) := by
    rw [omerge_cons]
    refine oget_omerge_cons_self _ "updatedAt" (Json.str now) [] ?_
    intro q hq
    simp at hq
  have hcr : oget (omerge (omerge ex P)
      [("id", Json.str id), ("updatedAt", Json.str now)]) "createdAt"
      = oget ex "createdAt" := by
    rw [oget_omerge_of_not_mem]
    · exact oget_omerge_of_not_mem ex P "createdAt" (oget_none_not_mem hP)
    · intro q hq
      simp only [List.mem_cons, List.not_mem_nil, or_false] at hq
      rcases hq with rfl | rfl <;> simp
  have hrun : updateEntity st fs t id P none false salt iv now true
      = (fset (backupStep fs (entityFilePath t id) true)
          (entityFilePath t id)
          (FileData.jsonD (Json.obj (omerge (omerge ex P)
            [("id", Json.str id), ("updatedAt", Json.str now)]))),
         .ok (some (omerge (omerge ex P)
            [("id", Json.str id), ("updatedAt", Json.str now)]))) := by
    simp [updateEntity, hinit, hget, prepareEntity, storeEntity,
      writeJsonFile, hid, jsToPathString]
  refine ⟨_, _, hrun, hid, hcr, hupd, ?_⟩
  exact fget_fset_self _ _ _

/-- C2 amended witness: title update on a concrete stored record. -/
theorem C2_updateEntity_preserves_id_createdAt_witness :
    ∃ fs1 u, updateEntity ⟨⟨false, false⟩, true⟩
        [(entityFilePath "tasks" "e1", FileData.jsonD (Json.obj
          [("id", Json.str "e1"), ("createdAt", Json.str "T0"),
           ("title", Json.str "A")]))]
        "tasks" "e1" [("title", Json.str "B")] none false 0 0 "T5" true
        = (fs1, .ok (some u)) ∧
      oget u "id" = some (Json.str "e1") ∧
      oget u "createdAt" = oget [("id", Json.str "e1"),
        ("createdAt", Json.str "T0"), ("title", Json.str "A")] "createdAt" ∧
      oget u "updatedAt" = some (Json.str "T5") ∧
      fget fs1 (entityFilePath "tasks" "e1")
        = some (FileData.jsonD (Json.obj u)) :=
  C2_updateEntity_preserves_id_createdAt ⟨⟨false, false⟩, true⟩
    [(entityFilePath "tasks" "e1", FileData.jsonD (Json.obj
      [("id", Json.str "e1"), ("createdAt", Json.str "T0"),
       ("title", Json.str "A")]))]
    "tasks" "e1" [("title", Json.str "B")]
    [("id", Json.str "e1"), ("createdAt", Json.str "T0"),
     ("title", Json.str "A")]
    0 0 "T5" rfl rfl (by decide) rfl

/-- C4: getAllEntities cannot list anything at all: its body calls
this.fileUtils.readDir, a method the shipped FileUtils class does not
define, so every call on an initialized repository throws a TypeError
instead of returning the decrypted record list — evaluated here on a store
holding a field-level-encrypted record that the claim says would come back
decrypted. -/
theorem C4_getAllEntities_throws :
    getAllEntities ⟨⟨true, true⟩, true⟩
      [(entityFilePath "tasks" "e1", FileData.jsonD (Json.obj
        (prepareEntity ⟨true, true⟩
          [("id", Json.str "e1"), ("secret", Json.str "s")]
          (some ["secret"]) false 1 2)))]
      "tasks"
      = ([(entityFilePath "tasks" "e1", FileData.jsonD (Json.obj
          (prepareEntity ⟨true, true⟩
            [("id", Json.str "e1"), ("secret", Json.str "s")]
            (some ["secret"]) false 1 2)))],
         .error "this.fileUtils.readDir is not a function") := rfl


/-- C8: createEntity mutates its data argument in place — on the heap
model, the object of the caller-supplied reference gains an id when its id
was falsy or missing, gains a createdAt when that was falsy or missing,
keeps both when present, and always gets updatedAt overwritten — and the
method returns that very reference, not a copy. -/
theorem C8_createEntity_mutates_in_place (st : EntityRepo) (heap : Heap)
    (fs : FS) (t : String) (dataRef : Nat) (fl : Option (List String))
    (ew : Bool) (freshId : String) (salt iv : Nat) (now : String)
    (hinit : st.inited = true) :
    (createEntity st heap fs t dataRef fl ew freshId salt iv now true).2.2
      = Except.ok dataRef ∧
    oget (hget (createEntity st heap fs t dataRef fl ew freshId salt iv now
      true).1 dataRef) "updatedAt" = some (Json.str now) ∧
    (((oget (hget heap dataRef) "id").getD Json.null).truthy = false →
      oget (hget (createEntity st heap fs t dataRef fl ew freshId salt iv
        now true).1 dataRef) "id" = some (Json.str freshId)) ∧
    (((oget (hget heap dataRef) "id").getD Json.null).truthy = true →
      oget (hget (createEntity st heap fs t dataRef fl ew freshId salt iv
        now true).1 dataRef) "id" = oget (hget heap dataRef) "id") ∧
    (((oget (hget heap dataRef) "createdAt").getD Json.null).truthy = false →
      oget (hget (createEntity st heap fs t dataRef fl ew freshId salt iv
        now true).1 dataRef) "createdAt" = some (Json.str now)) ∧
    (((oget (hget heap dataRef) "createdAt").getD Json.null).truthy = true →
      oget (hget (createEntity st heap fs t dataRef fl ew freshId salt iv
        now true).1 dataRef) "createdAt"
        = oget (hget heap dataRef) "createdAt") := by
  by_cases hid : ((oget (hget heap dataRef) "id").getD Json.null).truthy
  · by_cases hcrd :
        ((oget (hget heap dataRef) "createdAt").getD Json.null).truthy
    · refine ⟨?_, ?_, ?_, ?_, ?_, ?_⟩ <;>
        simp [createEntity, hinit, storeEntity, writeJsonFile,
          hget_hset_self, hid, hcrd, oget_oset_self, oget_oset_updatedAt_id,
          oget_oset_updatedAt_createdAt, oget_oset_createdAt_id,
          oget_oset_id_createdAt]
    · refine ⟨?_, ?_, ?_, ?_, ?_, ?_⟩ <;>
        simp [createEntity, hinit, storeEntity, writeJsonFile,
          hget_hset_self, hid, hcrd, oget_oset_self, oget_oset_updatedAt_id,
          oget_oset_updatedAt_createdAt, oget_oset_createdAt_id,
          oget_oset_id_createdAt]
  · by_cases hcrd :
        ((oget (hget heap dataRef) "createdAt").getD Json.null).truthy
    · refine ⟨?_, ?_, ?_, ?_, ?_, ?_⟩ <;>
        simp [createEntity, hinit, storeEntity, writeJsonFile,
          hget_hset_self, hid, hcrd, oget_oset_self, oget_oset_updatedAt_id,
          oget_oset_updatedAt_createdAt, oget_oset_createdAt_id,
          oget_oset_id_createdAt]
    · refine ⟨?_, ?_, ?_, ?_, ?_, ?_⟩ <;>
        simp [createEntity, hinit, storeEntity, writeJsonFile,
          hget_hset_self, hid, hcrd, oget_oset_self, oget_oset_updatedAt_id,
          oget_oset_updatedAt_createdAt, oget_oset_createdAt_id,
          oget_oset_id_createdAt]

/-- C8 witness: a fresh object without id or createdAt. -/
theorem C8_createEntity_mutates_in_place_witness :
    (createEntity ⟨⟨false, false⟩, true⟩ [(0, [("title", Json.str "A")])]
      [] "tasks" 0 none false "fresh1" 0 0 "T3" true).2.2
      = Except.ok 0 ∧
    oget (hget (createEntity ⟨⟨false, false⟩, true⟩
      [(0, [("title", Json.str "A")])] [] "tasks" 0 none false "fresh1" 0 0
      "T3" true).1 0) "updatedAt" = some (Json.str "T3") ∧
    (((oget (hget [(0, [("title", Json.str "A")])] 0) "id").getD
        Json.null).truthy = false →
      oget (hget (createEntity ⟨⟨false, false⟩, true⟩
        [(0, [("title", Json.str "A")])] [] "tasks" 0 none false "fresh1"
        0 0 "T3" true).1 0) "id" = some (Json.str "fresh1")) ∧
    (((oget (hget [(0, [("title", Json.str "A")])] 0) "id").getD
        Json.null).truthy = true →
      oget (hget (createEntity ⟨⟨false, false⟩, true⟩
        [(0, [("title", Json.str "A")])] [] "tasks" 0 none false "fresh1"
        0 0 "T3" true).1 0) "id"
        = oget (hget [(0, [("title", Json.str "A")])] 0) "id") ∧
    (((oget (hget [(0, [("title", Json.str "A")])] 0) "createdAt").getD
        Json.null).truthy = false →
      oget (hget (createEntity ⟨⟨false, false⟩, true⟩
        [(0, [("title", Json.str "A")])] [] "tasks" 0 none false "fresh1"
        0 0 "T3" true).1 0) "createdAt" = some (Json.str "T3")) ∧
    (((oget (hget [(0, [("title", Json.str "A")])] 0) "createdAt").getD
        Json.null).truthy = true →
      oget (hget (createEntity ⟨⟨false, false⟩, true⟩
        [(0, [("title", Json.str "A")])] [] "tasks" 0 none false "fresh1"
        0 0 "T3" true).1 0) "createdAt"
        = oget (hget [(0, [("title", Json.str "A")])] 0) "createdAt") :=
  C8_createEntity_mutates_in_place ⟨⟨false, false⟩, true⟩
    [(0, [("title", Json.str "A")])] [] "tasks" 0 none false "fresh1" 0 0
    "T3" rfl

end FocusTrack
